import Mathlib

/-!
Verification of the spec of an AI resume-analyzer web backend against its
source (server.js, which exists in an authenticated-gate variant and a demo
variant). JavaScript strings are modelled as `List Char`. The built-in
JSON.parse / JSON.stringify pair used by the handlers is modelled by
`jsonParse` / `serJson` over a `Json` value type; JSON numbers are modelled
as integers (floating point is outside the model), and the parser takes a
fuel argument that is generous enough for every serialized value, proved by
`jsonParse_serJson`. External capabilities (the PDF/DOCX text extractors,
the bcrypt hash and compare, the Supabase credential store, and the Gemini
completion client) are parameters of the handler functions: an `Except Unit`
value stands for "the awaited call returned normally or threw". Handlers are
pure functions from a session and such an environment to the JSON response
they send, together with observable effect flags (was the temporary file
unlinked, was the completion client called).
-/

inductive Json where
  | jnull
  | jbool (b : Bool)
  | jnum (n : Int)
  | jstr (s : List Char)
  | jarr (elems : List Json)
  | jobj (fields : List (List Char × Json))
deriving Repr

def hexDigit (d : Nat) : Char :=
  match d with
  | 0 => '0' | 1 => '1' | 2 => '2' | 3 => '3' | 4 => '4'
  | 5 => '5' | 6 => '6' | 7 => '7' | 8 => '8' | 9 => '9'
  | 10 => 'a' | 11 => 'b' | 12 => 'c' | 13 => 'd' | 14 => 'e' | 15 => 'f'
  | _ => '0'

def natDigitsRev (n : Nat) : List Char :=
  if _h : n < 10 then [hexDigit n]
  else hexDigit (n % 10) :: natDigitsRev (n / 10)
termination_by n
decreasing_by exact Nat.div_lt_self (by omega) (by omega)

def natDigits (n : Nat) : List Char := (natDigitsRev n).reverse

def serNum (n : Int) : List Char :=
  if n < 0 then '-' :: natDigits n.natAbs else natDigits n.toNat

def escapeChar (c : Char) : List Char :=
  if c = '"' then ['\\', '"']
  else if c = '\\' then ['\\', '\\']
  else if c = Char.ofNat 8 then ['\\', 'b']
  else if c = Char.ofNat 9 then ['\\', 't']
  else if c = Char.ofNat 10 then ['\\', 'n']
  else if c = Char.ofNat 12 then ['\\', 'f']
  else if c = Char.ofNat 13 then ['\\', 'r']
  else if c.toNat < 32 then
    ['\\', 'u', '0', '0', hexDigit (c.toNat / 16), hexDigit (c.toNat % 16)]
  else [c]

def escapeStr (s : List Char) : List Char := s.flatMap escapeChar

def serStr (s : List Char) : List Char := '"' :: escapeStr s ++ ['"']

mutual

def serJson : Json → List Char
  | .jnull => ['n', 'u', 'l', 'l']
  | .jbool true => ['t', 'r', 'u', 'e']
  | .jbool false => ['f', 'a', 'l', 's', 'e']
  | .jnum n => serNum n
  | .jstr s => serStr s
  | .jarr xs => '[' :: serElems xs ++ [']']
  | .jobj fs => '{' :: serFields fs ++ ['}']

def serElems : List Json → List Char
  | [] => []
  | x :: xs => serJson x ++ serElemsT xs

def serElemsT : List Json → List Char
  | [] => []
  | x :: xs => ',' :: (serJson x ++ serElemsT xs)

def serFields : List (List Char × Json) → List Char
  | [] => []
  | (k, v) :: fs => serStr k ++ ':' :: serJson v ++ serFieldsT fs

def serFieldsT : List (List Char × Json) → List Char
  | [] => []
  | (k, v) :: fs => ',' :: (serStr k ++ ':' :: serJson v ++ serFieldsT fs)

end

def jsonWsChar (c : Char) : Bool :=
  c = ' ' || c = Char.ofNat 9 || c = Char.ofNat 10 || c = Char.ofNat 13

def skipWs (cs : List Char) : List Char := cs.dropWhile jsonWsChar

def hexVal (c : Char) : Option Nat :=
  if c = '0' then some 0 else if c = '1' then some 1
  else if c = '2' then some 2 else if c = '3' then some 3
  else if c = '4' then some 4 else if c = '5' then some 5
  else if c = '6' then some 6 else if c = '7' then some 7
  else if c = '8' then some 8 else if c = '9' then some 9
  else if c = 'a' || c = 'A' then some 10 else if c = 'b' || c = 'B' then some 11
  else if c = 'c' || c = 'C' then some 12 else if c = 'd' || c = 'D' then some 13
  else if c = 'e' || c = 'E' then some 14 else if c = 'f' || c = 'F' then some 15
  else none

def unescapeChar (c : Char) : Option Char :=
  if c = '"' then some '"'
  else if c = '\\' then some '\\'
  else if c = '/' then some '/'
  else if c = 'b' then some (Char.ofNat 8)
  else if c = 'f' then some (Char.ofNat 12)
  else if c = 'n' then some (Char.ofNat 10)
  else if c = 'r' then some (Char.ofNat 13)
  else if c = 't' then some (Char.ofNat 9)
  else none

def parseStrBody : List Char → Option (List Char × List Char)
  | [] => none
  | c :: rest =>
    if c = '"' then some ([], rest)
    else if c = '\\' then
      match rest with
      | [] => none
      | e :: rest2 =>
        if e = 'u' then
          match rest2 with
          | a :: b :: c2 :: d :: rest3 =>
            match hexVal a, hexVal b, hexVal c2, hexVal d with
            | some ha, some hb, some hc, some hd =>
              (parseStrBody rest3).map fun p =>
                (Char.ofNat (((ha * 16 + hb) * 16 + hc) * 16 + hd) :: p.1, p.2)
            | _, _, _, _ => none
          | _ => none
        else
          match unescapeChar e with
          | some u => (parseStrBody rest2).map fun p => (u :: p.1, p.2)
          | none => none
    else if c.toNat < 32 then none
    else (parseStrBody rest).map fun p => (c :: p.1, p.2)

def digitVal (c : Char) : Nat := c.toNat - 48

def digitsVal (ds : List Char) : Nat := ds.foldl (fun a c => a * 10 + digitVal c) 0

def parseNatNum (cs : List Char) : Option (Nat × List Char) :=
  let ds := cs.takeWhile Char.isDigit
  if ds.isEmpty then none
  else if ds.head? = some '0' ∧ 1 < ds.length then none
  else some (digitsVal ds, cs.drop ds.length)

def parseNumber (cs : List Char) : Option (Int × List Char) :=
  if cs.head? = some '-' then
    (parseNatNum cs.tail).map fun p => (-(p.1 : Int), p.2)
  else
    (parseNatNum cs).map fun p => ((p.1 : Int), p.2)

def stripLit : List Char → List Char → Option (List Char)
  | [], cs => some cs
  | _ :: _, [] => none
  | l :: ls, c :: cs => if c = l then stripLit ls cs else none

mutual

def parseVal : Nat → List Char → Option (Json × List Char)
  | 0, _ => none
  | fuel + 1, cs0 =>
    match skipWs cs0 with
    | [] => none
    | c :: cs =>
      if c = '[' then
        let r := skipWs cs
        if r.head? = some ']' then some (.jarr [], r.tail)
        else (parseElems fuel r).map fun p => (.jarr p.1, p.2)
      else if c = '{' then
        let r := skipWs cs
        if r.head? = some '}' then some (.jobj [], r.tail)
        else (parseFields fuel r).map fun p => (.jobj p.1, p.2)
      else if c = '"' then
        (parseStrBody cs).map fun p => (.jstr p.1, p.2)
      else if c = 'n' then
        (stripLit ['u', 'l', 'l'] cs).map fun r => (.jnull, r)
      else if c = 't' then
        (stripLit ['r', 'u', 'e'] cs).map fun r => (.jbool true, r)
      else if c = 'f' then
        (stripLit ['a', 'l', 's', 'e'] cs).map fun r => (.jbool false, r)
      else
        (parseNumber (c :: cs)).map fun p => (.jnum p.1, p.2)

def parseElems : Nat → List Char → Option (List Json × List Char)
  | 0, _ => none
  | fuel + 1, cs =>
    match parseVal fuel cs with
    | none => none
    | some (v, rest) =>
      match skipWs rest with
      | ',' :: r2 => (parseElems fuel r2).map fun p => (v :: p.1, p.2)
      | ']' :: r2 => some ([v], r2)
      | _ => none

def parseFields : Nat → List Char → Option (List (List Char × Json) × List Char)
  | 0, _ => none
  | fuel + 1, cs =>
    match skipWs cs with
    | '"' :: r1 =>
      match parseStrBody r1 with
      | none => none
      | some (k, r2) =>
        match skipWs r2 with
        | ':' :: r3 =>
          match parseVal fuel r3 with
          | none => none
          | some (v, r4) =>
            match skipWs r4 with
            | ',' :: r5 => (parseFields fuel r5).map fun p => ((k, v) :: p.1, p.2)
            | '}' :: r5 => some ([(k, v)], r5)
            | _ => none
        | _ => none
    | _ => none

end

def jsonParse (cs : List Char) : Option Json :=
  match parseVal (2 * cs.length + 2) cs with
  | some (v, rest) => if skipWs rest = [] then some v else none
  | none => none

def headNotDigit (cs : List Char) : Bool :=
  match cs.head? with
  | some c => !c.isDigit
  | none => true

mutual

def jsize : Json → Nat
  | .jnull => 1
  | .jbool _ => 1
  | .jnum _ => 1
  | .jstr _ => 1
  | .jarr xs => 1 + esize xs
  | .jobj fs => 1 + fsize fs

def esize : List Json → Nat
  | [] => 0
  | x :: xs => 1 + jsize x + esize xs

def fsize : List (List Char × Json) → Nat
  | [] => 0
  | (_, v) :: fs => 1 + jsize v + fsize fs

end

def jsWsChar (c : Char) : Bool :=
  let n := c.toNat
  n = 9 || n = 10 || n = 11 || n = 12 || n = 13 || n = 32 || n = 160 ||
    n = 0x1680 || (0x2000 ≤ n && n ≤ 0x200a) || n = 0x2028 || n = 0x2029 ||
    n = 0x202f || n = 0x205f || n = 0x3000 || n = 0xfeff

def jsTrim (cs : List Char) : List Char :=
  ((cs.dropWhile jsWsChar).reverse.dropWhile jsWsChar).reverse

def startsWithTicks : List Char → Bool
  | '`' :: '`' :: '`' :: _ => true
  | _ => false

def stripFences : List Char → List Char
  | '`' :: '`' :: '`' :: 'j' :: 's' :: 'o' :: 'n' :: rest => stripFences rest
  | '`' :: '`' :: '`' :: rest => stripFences rest
  | c :: rest => c :: stripFences rest
  | [] => []

def firstIdx (c : Char) : List Char → Option Nat
  | [] => none
  | x :: xs => if x = c then some 0 else (firstIdx c xs).map (· + 1)

def lastIdx (c : Char) (cs : List Char) : Option Nat :=
  (firstIdx c cs.reverse).map (fun i => cs.length - 1 - i)

def jsSubstring (cs : List Char) (a b : Nat) : List Char :=
  (cs.take (max a b)).drop (min a b)

def sliceBraces (cs : List Char) : List Char :=
  match firstIdx '{' cs, lastIdx '}' cs with
  | some i, some j => jsSubstring cs i (j + 1)
  | _, _ => cs

def preprocessRaw (raw : List Char) : List Char :=
  let t := jsTrim raw
  if startsWithTicks t then jsTrim (stripFences t) else t

def extractJsonText (raw : List Char) : List Char :=
  sliceBraces (preprocessRaw raw)

def demoSanitize (raw : List Char) : Option Json :=
  jsonParse (extractJsonText raw)

structure SectionFeedback where
  skills : List Char
  projects : List Char
  experience : List Char
  education : List Char

inductive AnalysisResult where
  | resumeOnly (ats_score : Int) (strengths weaknesses enhancements : List (List Char))
      (section_feedback : SectionFeedback)
  | resumeJd (ats_score keyword_match : Int)
      (matched_keywords missing_keywords strengths weaknesses enhancements : List (List Char))
      (section_feedback : SectionFeedback)

def sectionFeedbackJson (fb : SectionFeedback) : Json :=
  .jobj [("skills".data, .jstr fb.skills), ("projects".data, .jstr fb.projects),
    ("experience".data, .jstr fb.experience), ("education".data, .jstr fb.education)]

def strArr (l : List (List Char)) : Json := .jarr (l.map Json.jstr)

def analysisJson : AnalysisResult → Json
  | .resumeOnly ats s w e fb =>
    .jobj [("mode".data, .jstr "resume_only".data),
      ("ats_score".data, .jnum ats),
      ("strengths".data, strArr s),
      ("weaknesses".data, strArr w),
      ("enhancements".data, strArr e),
      ("section_feedback".data, sectionFeedbackJson fb)]
  | .resumeJd ats km mk mik s w e fb =>
    .jobj [("mode".data, .jstr "resume_jd".data),
      ("ats_score".data, .jnum ats),
      ("keyword_match".data, .jnum km),
      ("matched_keywords".data, strArr mk),
      ("missing_keywords".data, strArr mik),
      ("strengths".data, strArr s),
      ("weaknesses".data, strArr w),
      ("enhancements".data, strArr e),
      ("section_feedback".data, sectionFeedbackJson fb)]

def canonSer (r : AnalysisResult) : List Char := serJson (analysisJson r)

def prosePrefix : List Char := "Here is the result:\n```json\n".data

def fenceSuffix : List Char := "\n```".data

def needCredsMsg : List Char := "Username and password required".data

def conflictMsg : List Char := "User already exists or DB error".data

def userNotFoundMsg : List Char := "User not found".data

def invalidPasswordMsg : List Char := "Invalid password".data

def loginFailedMsg : List Char := "Login failed".data

def noFileMsg : List Char := "No file uploaded".data

def unsupportedMsg : List Char := "Unsupported file format".data

def formatErrDemoMsg : List Char := "AI response format error. Please retry.".data

def formatErrAuthMsg : List Char := "AI response format error. Try again.".data

def analysisFailedMsg : List Char := "Analysis failed".data

def demoLimitMsg : List Char := "Demo limit reached. Please login or signup to continue.".data

def pdfMime : List Char := "application/pdf".data

def docxMime : List Char :=
  "application/vnd.openxmlformats-officedocument.wordprocessingml.document".data

def DEMO_LIMIT : Nat := 3

structure UserRow where
  id : Nat
  username : List Char
  password : List Char

structure Session where
  user : Option UserRow
  demoCount : Option Nat

structure Resp where
  status : Nat := 200
  success : Bool
  message : Option (List Char) := none
  analysis : Option Json := none
  remainingTries : Option Int := none
  demoLimitReached : Bool := false

def sessionCount (s : Session) : Nat :=
  match s.demoCount with
  | none => 0
  | some n => n

inductive GateResult where
  | allow (s : Session)
  | reject (resp : Resp)

def demoLimiter (s : Session) : GateResult :=
  if s.user.isSome then .allow s
  else
    let c := sessionCount s
    if DEMO_LIMIT ≤ c then
      .reject { status := 401, success := false, demoLimitReached := true,
                message := some demoLimitMsg }
    else
      .allow { s with demoCount := some (c + 1) }

def jsFalsy (v : Option (List Char)) : Bool :=
  match v with
  | none => true
  | some s => s.isEmpty

structure RegisterOutcome where
  resp : Resp
  inserted : Option (List Char × List Char)

def registerHandler (username password : Option (List Char))
    (hashFn : List Char → Except Unit (List Char)) (insertError : Bool) : RegisterOutcome :=
  if jsFalsy username || jsFalsy password then
    { resp := { success := false, message := some needCredsMsg }, inserted := none }
  else
    match hashFn (password.getD []) with
    | .error _ => { resp := { success := false, message := some conflictMsg }, inserted := none }
    | .ok hashed =>
      if insertError then
        { resp := { success := false, message := some conflictMsg },
          inserted := some (username.getD [], hashed) }
      else
        { resp := { success := true }, inserted := some (username.getD [], hashed) }

def authLogin (username password : Option (List Char))
    (lookup : Except Unit (Option UserRow)) (pwMatch : Except Unit Bool)
    (s : Session) : Except Unit (Resp × Session) :=
  if jsFalsy username || jsFalsy password then
    .ok ({ success := false, message := some needCredsMsg }, s)
  else
    match lookup with
    | .error _ => .ok ({ success := false, message := some loginFailedMsg }, s)
    | .ok none => .ok ({ success := false, message := some userNotFoundMsg }, s)
    | .ok (some row) =>
      match pwMatch with
      | .error _ => .ok ({ success := false, message := some loginFailedMsg }, s)
      | .ok false => .ok ({ success := false, message := some invalidPasswordMsg }, s)
      | .ok true => .ok ({ success := true }, { user := some row, demoCount := s.demoCount })

def demoLogin (lookup : Except Unit (Option UserRow)) (pwMatch : Except Unit Bool)
    (s : Session) : Except Unit (Resp × Session) :=
  match lookup with
  | .error e => .error e
  | .ok none => .ok ({ success := false, message := some userNotFoundMsg }, s)
  | .ok (some row) =>
    match pwMatch with
    | .error e => .error e
    | .ok false => .ok ({ success := false, message := some invalidPasswordMsg }, s)
    | .ok true => .ok ({ success := true }, { user := some row, demoCount := some 0 })

def modeOf (jobdesc : Option (List Char)) : List Char :=
  if (jsTrim (jobdesc.getD [])).isEmpty then "resume_only".data else "resume_jd".data

structure UploadEnv where
  file : Option (List Char)
  extractResult : Except Unit (List Char)
  completionResult : Except Unit (List Char)
  jobdesc : Option (List Char)

structure UploadOutcome where
  resp : Resp
  fileRemoved : Bool
  completionCalled : Bool

def demoRemaining (s : Session) : Option Int :=
  if s.user.isSome then none
  else some (max 0 ((DEMO_LIMIT : Int) - (sessionCount s : Int)))

def demoUploadAfterExtract (s : Session) (env : UploadEnv) : UploadOutcome :=
  match env.completionResult with
  | .error _ =>
    { resp := { success := false, message := some analysisFailedMsg },
      fileRemoved := true, completionCalled := true }
  | .ok raw =>
    match demoSanitize raw with
    | none =>
      { resp := { success := false, message := some formatErrDemoMsg },
        fileRemoved := true, completionCalled := true }
    | some analysis =>
      { resp := { success := true, analysis := some analysis,
                  remainingTries := demoRemaining s },
        fileRemoved := true, completionCalled := true }

def demoUploadCore (s : Session) (env : UploadEnv) : UploadOutcome :=
  match env.file with
  | none =>
    { resp := { success := false, message := some noFileMsg },
      fileRemoved := false, completionCalled := false }
  | some mime =>
    if mime = pdfMime then
      match env.extractResult with
      | .error _ =>
        { resp := { success := false, message := some analysisFailedMsg },
          fileRemoved := false, completionCalled := false }
      | .ok _ => demoUploadAfterExtract s env
    else if mime = docxMime then
      match env.extractResult with
      | .error _ =>
        { resp := { success := false, message := some analysisFailedMsg },
          fileRemoved := false, completionCalled := false }
      | .ok _ => demoUploadAfterExtract s env
    else
      { resp := { success := false, message := some unsupportedMsg },
        fileRemoved := false, completionCalled := false }

structure RouteOutcome where
  resp : Resp
  sess : Session
  fileRemoved : Bool
  completionCalled : Bool

def demoUploadRoute (s : Session) (env : UploadEnv) : RouteOutcome :=
  match demoLimiter s with
  | .reject r => { resp := r, sess := s, fileRemoved := false, completionCalled := false }
  | .allow s' =>
    let o := demoUploadCore s' env
    { resp := o.resp, sess := s', fileRemoved := o.fileRemoved,
      completionCalled := o.completionCalled }

def authSanitize (raw : List Char) : Option Json := jsonParse raw

def authUploadCore (env : UploadEnv) : UploadOutcome :=
  match env.file with
  | none =>
    { resp := { success := false, message := some noFileMsg },
      fileRemoved := false, completionCalled := false }
  | some mime =>
    if mime = pdfMime then
      match env.extractResult with
      | .error _ =>
        { resp := { success := false, message := some analysisFailedMsg },
          fileRemoved := false, completionCalled := false }
      | .ok _ =>
        match env.completionResult with
        | .error _ =>
          { resp := { success := false, message := some analysisFailedMsg },
            fileRemoved := true, completionCalled := true }
        | .ok raw =>
          match authSanitize raw with
          | none =>
            { resp := { success := false, message := some formatErrAuthMsg },
              fileRemoved := true, completionCalled := true }
          | some analysis =>
            { resp := { success := true, analysis := some analysis },
              fileRemoved := true, completionCalled := true }
    else if mime = docxMime then
      match env.extractResult with
      | .error _ =>
        { resp := { success := false, message := some analysisFailedMsg },
          fileRemoved := false, completionCalled := false }
      | .ok _ =>
        match env.completionResult with
        | .error _ =>
          { resp := { success := false, message := some analysisFailedMsg },
            fileRemoved := true, completionCalled := true }
        | .ok raw =>
          match authSanitize raw with
          | none =>
            { resp := { success := false, message := some formatErrAuthMsg },
              fileRemoved := true, completionCalled := true }
          | some analysis =>
            { resp := { success := true, analysis := some analysis },
              fileRemoved := true, completionCalled := true }
    else
      { resp := { success := false, message := some unsupportedMsg },
        fileRemoved := false, completionCalled := false }

structure DemoStatusResp where
  isDemo : Bool
  remainingTries : Option Int

def demoStatusHandler (s : Session) : DemoStatusResp :=
  { isDemo := !s.user.isSome, remainingTries := demoRemaining s }

inductive Reachable : Session → Prop where
  | init : Reachable { user := none, demoCount := none }
  | upload (s : Session) (env : UploadEnv) :
      Reachable s → Reachable (demoUploadRoute s env).sess
  | login (s s' : Session) (lookup : Except Unit (Option UserRow))
      (pw : Except Unit Bool) (r : Resp) :
      Reachable s → demoLogin lookup pw s = .ok (r, s') → Reachable s'
  | logout (s : Session) : Reachable s → Reachable { user := none, demoCount := none }

theorem hexVal_hexDigit : ∀ d, d < 16 → hexVal (hexDigit d) = some d := by decide

theorem digitVal_hexDigit : ∀ d, d < 10 → digitVal (hexDigit d) = d := by decide

theorem isDigit_hexDigit : ∀ d, d < 10 → (hexDigit d).isDigit = true := by decide

theorem hexDigit_ne_zero : ∀ d, d < 10 → d ≠ 0 → hexDigit d ≠ '0' := by decide

theorem natDigitsRev_ne_nil (n : Nat) : natDigitsRev n ≠ [] := by
  rw [natDigitsRev]
  split <;> simp

theorem natDigitsRev_mem (n : Nat) : ∀ c ∈ natDigitsRev n, ∃ d, d < 10 ∧ c = hexDigit d := by
  induction n using Nat.strong_induction_on with
  | _ n ih =>
    rw [natDigitsRev]
    split
    · next h =>
      intro c hc
      simp only [List.mem_singleton] at hc
      exact ⟨n, h, hc⟩
    · next h =>
      intro c hc
      rcases List.mem_cons.mp hc with h1 | h1
      · exact ⟨n % 10, Nat.mod_lt _ (by omega), h1⟩
      · exact ih (n / 10) (Nat.div_lt_self (by omega) (by omega)) c h1

theorem natDigits_ne_nil (n : Nat) : natDigits n ≠ [] := by
  simp [natDigits, natDigitsRev_ne_nil]

theorem natDigits_mem (n : Nat) : ∀ c ∈ natDigits n, ∃ d, d < 10 ∧ c = hexDigit d := by
  intro c hc
  exact natDigitsRev_mem n c (List.mem_reverse.mp hc)

theorem digitsVal_natDigits (n : Nat) : digitsVal (natDigits n) = n := by
  induction n using Nat.strong_induction_on with
  | _ n ih =>
    rw [natDigits, natDigitsRev]
    split
    · next h =>
      simp [digitsVal, digitVal_hexDigit n h]
    · next h =>
      rw [List.reverse_cons]
      have : (natDigitsRev (n / 10)).reverse = natDigits (n / 10) := rfl
      rw [this]
      simp only [digitsVal, List.foldl_append, List.foldl_cons, List.foldl_nil]
      have h1 : (natDigits (n / 10)).foldl (fun a c => a * 10 + digitVal c) 0 = n / 10 :=
        ih (n / 10) (Nat.div_lt_self (by omega) (by omega))
      rw [h1, digitVal_hexDigit (n % 10) (by omega)]
      omega

theorem natDigits_small (n : Nat) (h : n < 10) : natDigits n = [hexDigit n] := by
  rw [natDigits, natDigitsRev]
  simp [h]

theorem natDigits_head_ne_zero (n : Nat) (hn : 1 ≤ n) :
    ∀ c, (natDigits n).head? = some c → c ≠ '0' := by
  induction n using Nat.strong_induction_on with
  | _ n ih =>
    intro c hc
    by_cases h : n < 10
    · rw [natDigits_small n h] at hc
      simp at hc
      subst hc
      exact hexDigit_ne_zero n h (by omega)
    · rw [natDigits, natDigitsRev] at hc
      rw [dif_neg h] at hc
      rw [List.reverse_cons] at hc
      have hne : (natDigitsRev (n / 10)).reverse ≠ [] := by
        simp [natDigitsRev_ne_nil]
      rcases List.exists_cons_of_ne_nil hne with ⟨b, L, hbl⟩
      rw [hbl] at hc
      simp at hc
      have hhead : (natDigits (n / 10)).head? = some b := by rw [natDigits, hbl]; rfl
      have hb := ih (n / 10) (Nat.div_lt_self (by omega) (by omega)) (by omega) b hhead
      exact hc ▸ hb

theorem takeWhile_append_all (p : Char → Bool) (xs rest : List Char)
    (hall : ∀ x ∈ xs, p x = true)
    (hrest : ∀ c, rest.head? = some c → p c = false) :
    (xs ++ rest).takeWhile p = xs := by
  induction xs with
  | nil =>
    simp only [List.nil_append]
    cases rest with
    | nil => rfl
    | cons r rs => simp [List.takeWhile, hrest r rfl]
  | cons x xs ih =>
    simp only [List.cons_append, List.takeWhile]
    rw [hall x (List.mem_cons_self x xs)]
    simp [ih (fun y hy => hall y (List.mem_cons_of_mem x hy))]

theorem parseNatNum_natDigits (n : Nat) (rest : List Char)
    (hrest : headNotDigit rest = true) :
    parseNatNum (natDigits n ++ rest) = some (n, rest) := by
  have hall : ∀ x ∈ natDigits n, x.isDigit = true := by
    intro x hx
    rcases natDigits_mem n x hx with ⟨d, hd, rfl⟩
    exact isDigit_hexDigit d hd
  have hrest' : ∀ c, rest.head? = some c → c.isDigit = false := by
    intro c hc
    unfold headNotDigit at hrest
    rw [hc] at hrest
    simpa using hrest
  have htake : (natDigits n ++ rest).takeWhile Char.isDigit = natDigits n :=
    takeWhile_append_all _ _ _ hall hrest'
  rw [parseNatNum]
  simp only [htake]
  rw [if_neg (by simp [natDigits_ne_nil n])]
  rw [if_neg ?_, digitsVal_natDigits]
  · rw [List.drop_left]
  · rintro ⟨hz, hlen⟩
    by_cases h : n < 10
    · rw [natDigits_small n h] at hlen
      simp at hlen
    · have h1 : 1 ≤ n := by omega
      rcases List.exists_cons_of_ne_nil (natDigits_ne_nil n) with ⟨b, L, hbl⟩
      rw [hbl] at hz
      simp at hz
      exact natDigits_head_ne_zero n h1 b (by rw [hbl]; rfl) hz

theorem serHead_not_dash : ∀ d, d < 10 → hexDigit d ≠ '-' := by decide

theorem parseNumber_serNum (n : Int) (rest : List Char)
    (hrest : headNotDigit rest = true) :
    parseNumber (serNum n ++ rest) = some (n, rest) := by
  rw [serNum]
  by_cases hn : n < 0
  · rw [if_pos hn]
    rw [parseNumber]
    simp only [List.cons_append, List.head?_cons, List.tail_cons]
    rw [if_pos trivial, parseNatNum_natDigits _ _ hrest]
    simp only [Option.map_some']
    have : -(n.natAbs : Int) = n := by omega
    rw [this]
  · rw [if_neg hn]
    rcases List.exists_cons_of_ne_nil (natDigits_ne_nil n.toNat) with ⟨b, L, hbl⟩
    have hb : ∃ d, d < 10 ∧ b = hexDigit d := natDigits_mem _ b (by rw [hbl]; exact List.mem_cons_self b L)
    rcases hb with ⟨d, hd, rfl⟩
    rw [parseNumber, hbl]
    simp only [List.cons_append, List.head?_cons]
    rw [if_neg (by simp [serHead_not_dash d hd])]
    rw [← List.cons_append, ← hbl, parseNatNum_natDigits _ _ hrest]
    simp only [Option.map_some']
    congr 2
    omega

theorem parseStrBody_escape (s rest : List Char) :
    parseStrBody (escapeStr s ++ '"' :: rest) = some (s, rest) := by
  induction s with
  | nil =>
    simp only [escapeStr, List.flatMap_nil, List.nil_append]
    rw [parseStrBody.eq_def]
    simp
  | cons c s ih =>
    have hstep : escapeStr (c :: s) = escapeChar c ++ escapeStr s := by
      simp [escapeStr]
    rw [hstep, List.append_assoc]
    by_cases h1 : c = '"'
    · subst h1
      rw [escapeChar]
      simp only [if_pos rfl, List.cons_append, List.nil_append]
      rw [parseStrBody.eq_def]
      simp [unescapeChar, ih]
    by_cases h2 : c = '\\'
    · subst h2
      rw [escapeChar]
      rw [if_neg (by decide), if_pos rfl]
      simp only [List.cons_append, List.nil_append]
      rw [parseStrBody.eq_def]
      simp [unescapeChar, ih]
    by_cases h3 : c = Char.ofNat 8
    · subst h3
      rw [escapeChar]
      rw [if_neg (by decide), if_neg (by decide), if_pos rfl]
      simp only [List.cons_append, List.nil_append]
      rw [parseStrBody.eq_def]
      simp [unescapeChar, ih]
    by_cases h4 : c = Char.ofNat 9
    · subst h4
      rw [escapeChar]
      rw [if_neg (by decide), if_neg (by decide), if_neg (by decide), if_pos rfl]
      simp only [List.cons_append, List.nil_append]
      rw [parseStrBody.eq_def]
      simp [unescapeChar, ih]
    by_cases h5 : c = Char.ofNat 10
    · subst h5
      rw [escapeChar]
      rw [if_neg (by decide), if_neg (by decide), if_neg (by decide), if_neg (by decide),
        if_pos rfl]
      simp only [List.cons_append, List.nil_append]
      rw [parseStrBody.eq_def]
      simp [unescapeChar, ih]
    by_cases h6 : c = Char.ofNat 12
    · subst h6
      rw [escapeChar]
      rw [if_neg (by decide), if_neg (by decide), if_neg (by decide), if_neg (by decide),
        if_neg (by decide), if_pos rfl]
      simp only [List.cons_append, List.nil_append]
      rw [parseStrBody.eq_def]
      simp [unescapeChar, ih]
    by_cases h7 : c = Char.ofNat 13
    · subst h7
      rw [escapeChar]
      rw [if_neg (by decide), if_neg (by decide), if_neg (by decide), if_neg (by decide),
        if_neg (by decide), if_neg (by decide), if_pos rfl]
      simp only [List.cons_append, List.nil_append]
      rw [parseStrBody.eq_def]
      simp [unescapeChar, ih]
    by_cases h8 : c.toNat < 32
    · rw [escapeChar, if_neg h1, if_neg h2, if_neg h3, if_neg h4, if_neg h5, if_neg h6,
        if_neg h7, if_pos h8]
      have hv1 : hexVal (hexDigit (c.toNat / 16)) = some (c.toNat / 16) :=
        hexVal_hexDigit _ (by omega)
      have hv2 : hexVal (hexDigit (c.toNat % 16)) = some (c.toNat % 16) :=
        hexVal_hexDigit _ (by omega)
      have harith : ((0 * 16 + 0) * 16 + c.toNat / 16) * 16 + c.toNat % 16 = c.toNat := by
        omega
      have h0 : hexVal '0' = some 0 := rfl
      simp only [List.cons_append, List.nil_append]
      rw [parseStrBody.eq_def]
      simp only [h0, hv1, hv2, ih, Option.map_some']
      have harith2 : c.toNat / 16 * 16 + c.toNat % 16 = c.toNat := by omega
      rw [harith, Char.ofNat_toNat]
      simp
    · rw [escapeChar, if_neg h1, if_neg h2, if_neg h3, if_neg h4, if_neg h5, if_neg h6,
        if_neg h7, if_neg h8]
      simp only [List.cons_append, List.nil_append]
      rw [parseStrBody.eq_def]
      simp [h1, h2, h8, ih]

theorem jsize_pos (v : Json) : 1 ≤ jsize v := by
  cases v <;> simp [jsize]

theorem skipWs_cons (c : Char) (cs : List Char) (h : jsonWsChar c = false) :
    skipWs (c :: cs) = c :: cs := by
  simp [skipWs, List.dropWhile, h]

theorem hexDigit_props : ∀ d, d < 10 →
    (jsonWsChar (hexDigit d) = false ∧ hexDigit d ≠ ']' ∧ hexDigit d ≠ '[' ∧
     hexDigit d ≠ '{' ∧ hexDigit d ≠ '"' ∧ hexDigit d ≠ 'n' ∧ hexDigit d ≠ 't' ∧
     hexDigit d ≠ 'f') := by decide

theorem serNum_head (n : Int) : ∃ c t, serNum n = c :: t ∧
    (jsonWsChar c = false ∧ c ≠ '[' ∧ c ≠ '{' ∧ c ≠ '"' ∧ c ≠ 'n' ∧ c ≠ 't' ∧
     c ≠ 'f' ∧ c ≠ ']') := by
  rw [serNum]
  by_cases hn : n < 0
  · rw [if_pos hn]
    exact ⟨'-', _, rfl, by decide, by decide, by decide, by decide, by decide,
      by decide, by decide, by decide⟩
  · rw [if_neg hn]
    obtain ⟨b, L, hbl⟩ := List.exists_cons_of_ne_nil (natDigits_ne_nil n.toNat)
    obtain ⟨d, hd, rfl⟩ := natDigits_mem _ b (hbl ▸ List.mem_cons_self _ _)
    obtain ⟨p1, p2, p3, p4, p5, p6, p7, p8⟩ := hexDigit_props d hd
    exact ⟨hexDigit d, L, hbl, p1, p3, p4, p5, p6, p7, p8, p2⟩

theorem serJson_head (v : Json) : ∃ c t, serJson v = c :: t ∧
    jsonWsChar c = false ∧ c ≠ ']' := by
  cases v with
  | jnull => exact ⟨'n', ['u', 'l', 'l'], by rw [serJson], by decide, by decide⟩
  | jbool b =>
    cases b
    · exact ⟨'f', ['a', 'l', 's', 'e'], by rw [serJson], by decide, by decide⟩
    · exact ⟨'t', ['r', 'u', 'e'], by rw [serJson], by decide, by decide⟩
  | jnum n =>
    obtain ⟨c, t, hct, hws, _, _, _, _, _, _, hne⟩ := serNum_head n
    exact ⟨c, t, by rw [serJson, hct], hws, hne⟩
  | jstr s =>
    exact ⟨'"', escapeStr s ++ ['"'], by rw [serJson, serStr, List.cons_append], by decide, by decide⟩
  | jarr xs =>
    exact ⟨'[', serElems xs ++ [']'], by rw [serJson, List.cons_append], by decide, by decide⟩
  | jobj fs =>
    exact ⟨'{', serFields fs ++ ['}'], by rw [serJson, List.cons_append], by decide, by decide⟩

theorem headNotDigit_cons (c : Char) (cs : List Char) (h : c.isDigit = false) :
    headNotDigit (c :: cs) = true := by
  simp [headNotDigit, h]

theorem headNotDigit_serElemsT (xs : List Json) (rest : List Char) :
    headNotDigit (serElemsT xs ++ ']' :: rest) = true := by
  cases xs with
  | nil => rw [serElemsT]; exact headNotDigit_cons _ _ (by decide)
  | cons y ys => rw [serElemsT]; exact headNotDigit_cons _ _ (by decide)

theorem headNotDigit_serFieldsT (fs : List (List Char × Json)) (rest : List Char) :
    headNotDigit (serFieldsT fs ++ '}' :: rest) = true := by
  cases fs with
  | nil => rw [serFieldsT]; exact headNotDigit_cons _ _ (by decide)
  | cons f fs =>
    obtain ⟨k, v⟩ := f
    rw [serFieldsT]; exact headNotDigit_cons _ _ (by decide)

theorem parse_ser (fuel : Nat) :
    (∀ v rest, jsize v ≤ fuel → headNotDigit rest = true →
      parseVal fuel (serJson v ++ rest) = some (v, rest)) ∧
    (∀ x xs rest, 1 + jsize x + esize xs ≤ fuel →
      parseElems fuel (serJson x ++ (serElemsT xs ++ ']' :: rest)) = some (x :: xs, rest)) ∧
    (∀ k v fs rest, 1 + jsize v + fsize fs ≤ fuel →
      parseFields fuel (serStr k ++ ':' :: (serJson v ++ (serFieldsT fs ++ '}' :: rest))) =
        some ((k, v) :: fs, rest)) := by
  induction fuel with
  | zero =>
    refine ⟨fun v rest hsz _ => absurd hsz (by have := jsize_pos v; omega),
      fun x xs rest hsz => absurd hsz (by omega),
      fun k v fs rest hsz => absurd hsz (by omega)⟩
  | succ f ih =>
    obtain ⟨ih1, ih2, ih3⟩ := ih
    refine ⟨?_, ?_, ?_⟩
    · -- parseVal round trip
      intro v rest hsz hrest
      cases v with
      | jnull =>
        rw [serJson]
        simp only [List.cons_append, List.nil_append]
        rw [parseVal]
        rw [skipWs_cons _ _ (by decide)]
        simp [stripLit]
      | jbool b =>
        cases b
        · rw [serJson]
          simp only [List.cons_append, List.nil_append]
          rw [parseVal]
          rw [skipWs_cons _ _ (by decide)]
          simp [stripLit]
        · rw [serJson]
          simp only [List.cons_append, List.nil_append]
          rw [parseVal]
          rw [skipWs_cons _ _ (by decide)]
          simp [stripLit]
      | jnum n =>
        obtain ⟨c, t, hct, hws, hb1, hb2, hb3, hb4, hb5, hb6, _⟩ := serNum_head n
        rw [serJson, hct]
        simp only [List.cons_append]
        rw [parseVal]
        rw [skipWs_cons _ _ hws]
        simp only [hb1, hb2, hb3, hb4, hb5, hb6, if_false, if_neg]
        rw [← List.cons_append, ← hct, parseNumber_serNum n rest hrest]
        rfl
      | jstr s =>
        rw [serJson, serStr]
        simp only [List.cons_append, List.append_assoc, List.nil_append]
        rw [parseVal]
        rw [skipWs_cons _ _ (by decide)]
        simp [parseStrBody_escape]
      | jarr xs =>
        cases xs with
        | nil =>
          rw [serJson, serElems]
          simp only [List.nil_append, List.cons_append]
          rw [parseVal]
          rw [skipWs_cons _ _ (by decide)]
          simp [show skipWs (']' :: rest) = ']' :: rest from skipWs_cons _ _ (by decide)]
        | cons x xs =>
          have hb : 1 + jsize x + esize xs ≤ f := by
            simp only [jsize, esize] at hsz
            omega
          have harg := ih2 x xs rest hb
          obtain ⟨c, t, hct, hws, hne⟩ := serJson_head x
          have hskip : skipWs (serJson x ++ (serElemsT xs ++ ']' :: rest)) =
              serJson x ++ (serElemsT xs ++ ']' :: rest) := by
            rw [hct, List.cons_append]
            exact skipWs_cons _ _ hws
          have hhead : (serJson x ++ (serElemsT xs ++ ']' :: rest)).head? = some c := by
            rw [hct, List.cons_append, List.head?_cons]
          rw [serJson, serElems]
          simp only [List.cons_append, List.append_assoc, List.nil_append]
          rw [parseVal]
          rw [skipWs_cons _ _ (by decide)]
          simp [hskip, hhead, hne, harg]
      | jobj fs =>
        cases fs with
        | nil =>
          rw [serJson, serFields]
          simp only [List.nil_append, List.cons_append]
          rw [parseVal]
          rw [skipWs_cons _ _ (by decide)]
          simp [show skipWs ('}' :: rest) = '}' :: rest from skipWs_cons _ _ (by decide)]
        | cons kv fs =>
          obtain ⟨k, v⟩ := kv
          have hb : 1 + jsize v + fsize fs ≤ f := by
            simp only [jsize, fsize] at hsz
            omega
          have harg := ih3 k v fs rest hb
          rw [serJson, serFields, serStr]
          simp only [List.cons_append, List.append_assoc, List.nil_append]
          rw [parseVal]
          rw [skipWs_cons _ _ (by decide)]
          have hskip2 : skipWs ('"' :: (escapeStr k ++ '"' :: ':' ::
              (serJson v ++ (serFieldsT fs ++ '}' :: rest)))) = '"' :: (escapeStr k ++ '"' :: ':' ::
              (serJson v ++ (serFieldsT fs ++ '}' :: rest))) := skipWs_cons _ _ (by decide)
          rw [serStr] at harg
          simp only [List.cons_append, List.append_assoc, List.nil_append] at harg
          simp [hskip2, harg]
    · -- parseElems round trip
      intro x xs rest hsz
      have hx : jsize x ≤ f := by have := jsize_pos x; omega
      have hpv : parseVal f (serJson x ++ (serElemsT xs ++ ']' :: rest)) =
          some (x, serElemsT xs ++ ']' :: rest) :=
        ih1 x _ hx (headNotDigit_serElemsT xs rest)
      rw [parseElems, hpv]
      cases xs with
      | nil =>
        rw [serElemsT]
        simp [show skipWs (']' :: rest) = ']' :: rest from skipWs_cons _ _ (by decide)]
      | cons y ys =>
        have hb : 1 + jsize y + esize ys ≤ f := by
          have := jsize_pos x
          simp only [esize] at hsz
          omega
        have harg := ih2 y ys rest hb
        rw [serElemsT]
        simp only [List.cons_append, List.append_assoc, List.nil_append]
        have hsk := skipWs_cons ',' (serJson y ++ (serElemsT ys ++ ']' :: rest)) (by decide)
        simp [hsk, harg]
    · -- parseFields round trip
      intro k v fs rest hsz
      have hv : jsize v ≤ f := by omega
      rw [parseFields, serStr]
      simp only [List.cons_append, List.append_assoc, List.nil_append]
      cases fs with
      | nil =>
        rw [serFieldsT]
        simp only [List.nil_append]
        have hpv := ih1 v ('}' :: rest) hv (headNotDigit_cons _ _ (by decide))
        have hsb := parseStrBody_escape k (':' :: (serJson v ++ '}' :: rest))
        have hsk2 := skipWs_cons ':' (serJson v ++ '}' :: rest) (by decide)
        have hsk3 := skipWs_cons '}' rest (by decide)
        have hsk1 := skipWs_cons '"'
          (escapeStr k ++ '"' :: ':' :: (serJson v ++ '}' :: rest)) (by decide)
        simp [hsk1, hsb, hsk2, hpv, hsk3]
      | cons kv fs2 =>
        obtain ⟨k2, v2⟩ := kv
        rw [serFieldsT]
        simp only [List.cons_append, List.append_assoc, List.nil_append]
        have hpv := ih1 v
          (',' :: (serStr k2 ++ ':' :: (serJson v2 ++ (serFieldsT fs2 ++ '}' :: rest))))
          hv (headNotDigit_cons _ _ (by decide))
        have hsb := parseStrBody_escape k (':' :: (serJson v ++
          ',' :: (serStr k2 ++ ':' :: (serJson v2 ++ (serFieldsT fs2 ++ '}' :: rest)))))
        have hsk2 := skipWs_cons ':' (serJson v ++
          ',' :: (serStr k2 ++ ':' :: (serJson v2 ++ (serFieldsT fs2 ++ '}' :: rest)))) (by decide)
        have hsk3 := skipWs_cons ','
          (serStr k2 ++ ':' :: (serJson v2 ++ (serFieldsT fs2 ++ '}' :: rest))) (by decide)
        have hb : 1 + jsize v2 + fsize fs2 ≤ f := by
          have := jsize_pos v
          simp only [fsize] at hsz
          omega
        have harg := ih3 k2 v2 fs2 rest hb
        have hsk1 := skipWs_cons '"' (escapeStr k ++ '"' :: ':' :: (serJson v ++
          ',' :: (serStr k2 ++ ':' :: (serJson v2 ++ (serFieldsT fs2 ++ '}' :: rest))))) (by decide)
        simp [hsk1, hsb, hsk2, hpv, hsk3, harg]

theorem esizeT_le (t : List Json) (h : ∀ x ∈ t, jsize x ≤ 2 * (serJson x).length) :
    esize t ≤ 2 * (serElemsT t).length := by
  induction t with
  | nil => simp [esize, serElemsT]
  | cons x t ih =>
    rw [esize, serElemsT]
    simp only [List.length_cons, List.length_append]
    have h1 := h x (List.mem_cons_self x t)
    have h2 := ih (fun y hy => h y (List.mem_cons_of_mem x hy))
    omega

theorem fsizeT_le (t : List (List Char × Json))
    (h : ∀ p ∈ t, jsize p.2 ≤ 2 * (serJson p.2).length) :
    fsize t ≤ 2 * (serFieldsT t).length := by
  induction t with
  | nil => simp [fsize, serFieldsT]
  | cons p t ih =>
    obtain ⟨k, v⟩ := p
    rw [fsize, serFieldsT]
    simp only [List.length_cons, List.length_append]
    have h1 : jsize v ≤ 2 * (serJson v).length := h (k, v) (List.mem_cons_self _ t)
    have h2 := ih (fun q hq => h q (List.mem_cons_of_mem _ hq))
    omega

theorem serNum_len_pos (m : Int) : 1 ≤ (serNum m).length := by
  rw [serNum]
  split
  · simp
  · cases hnd : natDigits m.toNat with
    | nil => exact absurd hnd (natDigits_ne_nil m.toNat)
    | cons a b => simp [hnd]

theorem jsize_le_aux : ∀ n (v : Json), sizeOf v < n → jsize v ≤ 2 * (serJson v).length := by
  intro n
  induction n using Nat.strong_induction_on with
  | _ n ih =>
    intro v hv
    cases v with
    | jnull => simp [jsize, serJson]
    | jbool b => cases b <;> simp [jsize, serJson]
    | jnum m =>
      have := serNum_len_pos m
      rw [jsize, serJson]
      omega
    | jstr s =>
      rw [jsize, serJson, serStr]
      simp only [List.length_cons, List.length_append]
      omega
    | jarr xs =>
      have hmem : ∀ x ∈ xs, jsize x ≤ 2 * (serJson x).length := by
        intro x hx
        have hlt : sizeOf x < sizeOf (Json.jarr xs) := by
          have := List.sizeOf_lt_of_mem hx
          simp only [Json.jarr.sizeOf_spec]
          omega
        exact ih (sizeOf (Json.jarr xs)) (by omega) x hlt
      cases xs with
      | nil => simp [jsize, esize, serJson, serElems]
      | cons x t =>
        have h1 := hmem x (List.mem_cons_self x t)
        have h2 := esizeT_le t (fun y hy => hmem y (List.mem_cons_of_mem x hy))
        rw [jsize, serJson, serElems]
        simp only [esize, List.length_cons, List.length_append]
        omega
    | jobj fs =>
      have hmem : ∀ p ∈ fs, jsize p.2 ≤ 2 * (serJson p.2).length := by
        intro p hp
        have hlt : sizeOf p.2 < sizeOf (Json.jobj fs) := by
          have h1 := List.sizeOf_lt_of_mem hp
          obtain ⟨k, v⟩ := p
          simp only [Json.jobj.sizeOf_spec] at *
          simp only [Prod.mk.sizeOf_spec] at h1
          show sizeOf v < 1 + sizeOf fs
          omega
        exact ih (sizeOf (Json.jobj fs)) (by omega) p.2 hlt
      cases fs with
      | nil => simp [jsize, fsize, serJson, serFields]
      | cons p t =>
        obtain ⟨k, v⟩ := p
        have h1 : jsize v ≤ 2 * (serJson v).length := hmem (k, v) (List.mem_cons_self _ t)
        have h2 := fsizeT_le t (fun q hq => hmem q (List.mem_cons_of_mem _ hq))
        rw [jsize, serJson, serFields]
        simp only [fsize, List.length_cons, List.length_append]
        omega

theorem jsize_le (v : Json) : jsize v ≤ 2 * (serJson v).length :=
  jsize_le_aux (sizeOf v + 1) v (by omega)

theorem jsonParse_serJson (v : Json) : jsonParse (serJson v) = some v := by
  have h := (parse_ser (2 * (serJson v).length + 2)).1 v []
    (by have := jsize_le v; omega) rfl
  rw [List.append_nil] at h
  rw [jsonParse, h]
  rfl

theorem jsTrim_eq_self (cs : List Char)
    (h1 : ∀ c, cs.head? = some c → jsWsChar c = false)
    (h2 : ∀ c, cs.reverse.head? = some c → jsWsChar c = false) :
    jsTrim cs = cs := by
  rw [jsTrim]
  have e1 : cs.dropWhile jsWsChar = cs := by
    cases cs with
    | nil => rfl
    | cons a t => simp [List.dropWhile, h1 a rfl]
  rw [e1]
  have e2 : cs.reverse.dropWhile jsWsChar = cs.reverse := by
    cases hcs : cs.reverse with
    | nil => rfl
    | cons a t => simp [List.dropWhile, h2 a (by rw [hcs]; rfl)]
  rw [e2, List.reverse_reverse]

theorem firstIdx_cons_self (c : Char) (rest : List Char) :
    firstIdx c (c :: rest) = some 0 := by
  simp [firstIdx]

theorem firstIdx_append_cons (c : Char) (pre rest : List Char) (hpre : c ∉ pre) :
    firstIdx c (pre ++ c :: rest) = some pre.length := by
  induction pre with
  | nil => simp [firstIdx]
  | cons a t ih =>
    have ha : a ≠ c := fun h => hpre (h ▸ List.mem_cons_self a t)
    have ht : c ∉ t := fun h => hpre (List.mem_cons_of_mem a h)
    simp [firstIdx, ha, ih ht]

theorem sliceBraces_extract (pre ser suf : List Char)
    (hpre : '{' ∉ pre) (hsuf : '}' ∉ suf)
    (hser1 : ∃ t, ser = '{' :: t) (hser2 : ∃ t, ser.reverse = '}' :: t) :
    sliceBraces (pre ++ ser ++ suf) = ser := by
  obtain ⟨t1, ht1⟩ := hser1
  obtain ⟨t2, ht2⟩ := hser2
  have hlen : 1 ≤ ser.length := by rw [ht1]; simp
  have hfst : firstIdx '{' (pre ++ ser ++ suf) = some pre.length := by
    rw [List.append_assoc, ht1, List.cons_append]
    exact firstIdx_append_cons '{' pre (t1 ++ suf) hpre
  have hrev : (pre ++ ser ++ suf).reverse = suf.reverse ++ '}' :: (t2 ++ pre.reverse) := by
    rw [List.reverse_append, List.reverse_append, ht2]
    simp [List.append_assoc]
  have hsufr : '}' ∉ suf.reverse := fun h => hsuf (List.mem_reverse.mp h)
  have hlst : lastIdx '}' (pre ++ ser ++ suf) = some (pre.length + ser.length - 1) := by
    rw [lastIdx, hrev, firstIdx_append_cons '}' suf.reverse (t2 ++ pre.reverse) hsufr]
    simp only [Option.map_some']
    congr 1
    simp only [List.length_append, List.length_reverse]
    omega
  rw [sliceBraces, hfst, hlst]
  simp only [jsSubstring]
  have hmin : min pre.length (pre.length + ser.length - 1 + 1) = pre.length := by omega
  have hmax : max pre.length (pre.length + ser.length - 1 + 1) = pre.length + ser.length := by
    omega
  rw [hmin, hmax]
  have htake : (pre ++ ser ++ suf).take (pre.length + ser.length) = pre ++ ser := by
    have : (pre ++ ser).length = pre.length + ser.length := List.length_append pre ser
    rw [← this, List.take_left]
  rw [htake, List.drop_left]

theorem analysisJson_is_obj (r : AnalysisResult) : ∃ fs, analysisJson r = .jobj fs := by
  cases r
  · exact ⟨_, rfl⟩
  · exact ⟨_, rfl⟩

theorem canonSer_shape (r : AnalysisResult) :
    (∃ t, canonSer r = '{' :: t) ∧ (∃ t, (canonSer r).reverse = '}' :: t) := by
  obtain ⟨fs, hfs⟩ := analysisJson_is_obj r
  rw [canonSer, hfs, serJson]
  constructor
  · exact ⟨serFields fs ++ ['}'], by rw [List.cons_append]⟩
  · exact ⟨(serFields fs).reverse ++ ['{'], by simp⟩

theorem startsWithTicks_brace (t : List Char) : startsWithTicks ('{' :: t) = false := rfl

theorem demoSanitize_canon (r : AnalysisResult) :
    demoSanitize (canonSer r) = some (analysisJson r) := by
  obtain ⟨⟨t1, ht1⟩, ⟨t2, ht2⟩⟩ := canonSer_shape r
  rw [demoSanitize, extractJsonText, preprocessRaw]
  have htrim : jsTrim (canonSer r) = canonSer r := by
    apply jsTrim_eq_self
    · intro c hc
      rw [ht1] at hc
      simp at hc
      rw [← hc]
      decide
    · intro c hc
      rw [ht2] at hc
      simp at hc
      rw [← hc]
      decide
  simp only [htrim]
  rw [ht1, startsWithTicks_brace]
  simp only [if_false, Bool.false_eq_true]
  rw [← ht1]
  have hslice := sliceBraces_extract [] (canonSer r) [] (by simp) (by simp)
    ⟨t1, ht1⟩ ⟨t2, ht2⟩
  simp only [List.nil_append, List.append_nil] at hslice
  rw [hslice, canonSer, jsonParse_serJson]

theorem demoSanitize_fenced (r : AnalysisResult) :
    demoSanitize (prosePrefix ++ canonSer r ++ fenceSuffix) = some (analysisJson r) := by
  obtain ⟨⟨t1, ht1⟩, ⟨t2, ht2⟩⟩ := canonSer_shape r
  rw [demoSanitize, extractJsonText, preprocessRaw]
  have hpro : prosePrefix = 'H' :: "ere is the result:\n```json\n".data := rfl
  have htrim : jsTrim (prosePrefix ++ canonSer r ++ fenceSuffix) =
      prosePrefix ++ canonSer r ++ fenceSuffix := by
    apply jsTrim_eq_self
    · intro c hc
      rw [List.append_assoc, hpro, List.cons_append] at hc
      simp at hc
      rw [← hc]
      decide
    · intro c hc
      rw [List.reverse_append] at hc
      have hfs : fenceSuffix.reverse = '`' :: "``\n".data := rfl
      rw [hfs] at hc
      simp at hc
      rw [← hc]
      decide
  simp only [htrim]
  have hst : startsWithTicks (prosePrefix ++ canonSer r ++ fenceSuffix) = false := by
    rw [List.append_assoc, hpro, List.cons_append]
    rfl
  rw [hst]
  simp only [if_false, Bool.false_eq_true]
  have hslice := sliceBraces_extract prosePrefix (canonSer r) fenceSuffix
    (by decide) (by decide) ⟨t1, ht1⟩ ⟨t2, ht2⟩
  rw [hslice, canonSer, jsonParse_serJson]

theorem stripFences_mem (x : Char) : ∀ cs : List Char, x ∈ stripFences cs → x ∈ cs := by
  intro cs
  induction cs using stripFences.induct with
  | case1 rest ih =>
    rw [stripFences]
    intro h
    have := ih h
    simp_all
  | case2 rest hne ih =>
    have heq : stripFences ('`' :: '`' :: '`' :: rest) = stripFences rest := by
      rw [stripFences]
      exact hne
    intro h
    rw [heq] at h
    have := ih h
    simp_all
  | case3 c rest h1 h2 ih =>
    have heq : stripFences (c :: rest) = c :: stripFences rest := by
      rw [stripFences]
      exacts [h1, h2]
    intro h
    rw [heq] at h
    rcases List.mem_cons.mp h with h | h
    · simp [h]
    · exact List.mem_cons_of_mem _ (ih h)
  | case4 =>
    intro h
    simp [stripFences] at h

theorem jsTrim_mem (x : Char) (cs : List Char) (h : x ∈ jsTrim cs) : x ∈ cs := by
  rw [jsTrim] at h
  rw [List.mem_reverse] at h
  have h1 := (List.dropWhile_sublist (p := jsWsChar)
    (l := (cs.dropWhile jsWsChar).reverse)).mem h
  rw [List.mem_reverse] at h1
  exact (List.dropWhile_sublist (p := jsWsChar) (l := cs)).mem h1

theorem preprocessRaw_mem (x : Char) (cs : List Char) (h : x ∈ preprocessRaw cs) : x ∈ cs := by
  rw [preprocessRaw] at h
  by_cases hb : startsWithTicks (jsTrim cs) = true
  · rw [if_pos hb] at h
    exact jsTrim_mem x cs (stripFences_mem x _ (jsTrim_mem x _ h))
  · rw [if_neg hb] at h
    exact jsTrim_mem x cs h

theorem firstIdx_eq_none (c : Char) (cs : List Char) (h : c ∉ cs) :
    firstIdx c cs = none := by
  induction cs with
  | nil => rfl
  | cons a t ih =>
    have ha : a ≠ c := fun he => h (he ▸ List.mem_cons_self a t)
    have ht : c ∉ t := fun he => h (List.mem_cons_of_mem a he)
    simp [firstIdx, ha, ih ht]

theorem sliceBraces_no_brace (cs : List Char) (h : '{' ∉ cs) : sliceBraces cs = cs := by
  rw [sliceBraces, firstIdx_eq_none '{' cs h]

theorem extractJsonText_no_brace (raw : List Char) (h : '{' ∉ raw) :
    extractJsonText raw = preprocessRaw raw := by
  rw [extractJsonText]
  exact sliceBraces_no_brace _ (fun hm => h (preprocessRaw_mem _ _ hm))

theorem jsTrim_nil_iff (cs : List Char) : jsTrim cs = [] ↔ ∀ c ∈ cs, jsWsChar c = true := by
  rw [jsTrim]
  constructor
  · intro h c hc
    rw [List.reverse_eq_nil_iff, List.dropWhile_eq_nil_iff] at h
    have hsplit := List.takeWhile_append_dropWhile (p := jsWsChar) (l := cs)
    rw [← hsplit] at hc
    rcases List.mem_append.mp hc with h1 | h1
    · exact List.mem_takeWhile_imp h1
    · exact h c (List.mem_reverse.mpr h1)
  · intro h
    have hd : cs.dropWhile jsWsChar = [] :=
      List.dropWhile_eq_nil_iff.mpr (fun c hc => h c hc)
    rw [hd]
    rfl

/-- C1: demo-quota state machine (demoLimiter, demo-variant server.js lines
288-305, and the demo-variant login, lines 341-363). An authenticated
session is always admitted unchanged; an unauthenticated session is admitted
iff its demo counter is below DEMO_LIMIT = 3; each such admission increments
the counter by exactly one, and the counter stays incremented even if the
downstream pipeline later fails (demoUploadRoute, any environment); the 4th
and subsequent unauthenticated requests are rejected with HTTP status 401
and the demo-limit message; a successful login stores demoCount = 0. -/
theorem spec_C1 (s : Session) :
    (s.user.isSome = true → demoLimiter s = .allow s) ∧
    (s.user = none →
      ((∃ s', demoLimiter s = .allow s') ↔ sessionCount s < DEMO_LIMIT) ∧
      (sessionCount s < DEMO_LIMIT →
        demoLimiter s = .allow { user := s.user, demoCount := some (sessionCount s + 1) }) ∧
      (DEMO_LIMIT ≤ sessionCount s →
        demoLimiter s = .reject
          { status := 401, success := false, message := some demoLimitMsg,
            analysis := none, remainingTries := none, demoLimitReached := true }) ∧
      (∀ env, sessionCount s < DEMO_LIMIT →
        sessionCount (demoUploadRoute s env).sess = sessionCount s + 1)) ∧
    (∀ lookup pw row r s', lookup = .ok (some row) → pw = .ok true →
      demoLogin lookup pw s = .ok (r, s') → s'.demoCount = some 0) := by
  refine ⟨?_, ?_, ?_⟩
  · intro h
    rw [demoLimiter, if_pos h]
  · intro hu
    have hno : s.user.isSome = false := by rw [hu]; rfl
    by_cases hc : DEMO_LIMIT ≤ sessionCount s
    · refine ⟨?_, ?_, ?_, ?_⟩
      · constructor
        · rintro ⟨s', hs'⟩
          rw [demoLimiter, if_neg (by simp [hno])] at hs'
          simp only [if_pos hc] at hs'
          exact absurd hs' (by simp)
        · intro h
          omega
      · intro h
        omega
      · intro _
        rw [demoLimiter, if_neg (by simp [hno])]
        simp only [if_pos hc]
      · intro env h
        omega
    · push_neg at hc
      refine ⟨?_, ?_, ?_, ?_⟩
      · constructor
        · intro _
          exact hc
        · intro _
          refine ⟨{ user := s.user, demoCount := some (sessionCount s + 1) }, ?_⟩
          rw [demoLimiter, if_neg (by simp [hno])]
          simp only [if_neg (by omega : ¬ DEMO_LIMIT ≤ sessionCount s)]
      · intro _
        rw [demoLimiter, if_neg (by simp [hno])]
        simp only [if_neg (by omega : ¬ DEMO_LIMIT ≤ sessionCount s)]
      · intro h
        omega
      · intro env _
        rw [demoUploadRoute, demoLimiter, if_neg (by simp [hno])]
        simp only [if_neg (by omega : ¬ DEMO_LIMIT ≤ sessionCount s)]
        rfl
  · intro lookup pw row r s' hl hp h
    subst hl
    subst hp
    rw [demoLogin] at h
    simp at h
    rw [← h.2]

/-- C3: mode selection (server.js lines 144-145 and 415-416). If the supplied
job-description string is absent, empty, or whitespace-only after the JS
trim, the composed prompt's mode is resume_only; if anything non-whitespace
remains, the mode is resume_jd. -/
theorem spec_C3 (jd : Option (List Char)) :
    (modeOf jd = "resume_jd".data ↔ ¬ ∀ c ∈ jd.getD [], jsWsChar c = true) ∧
    (modeOf jd = "resume_only".data ↔ ∀ c ∈ jd.getD [], jsWsChar c = true) ∧
    modeOf none = "resume_only".data := by
  have hne : "resume_only".data ≠ "resume_jd".data := by decide
  by_cases h : (jsTrim (jd.getD [])).isEmpty = true
  · have hmode : modeOf jd = "resume_only".data := by rw [modeOf, if_pos h]
    rw [List.isEmpty_iff, jsTrim_nil_iff] at h
    refine ⟨?_, ?_, by rw [modeOf]; rfl⟩
    · rw [hmode]
      exact iff_of_false hne (not_not_intro h)
    · rw [hmode]
      exact iff_of_true rfl h
  · have hmode : modeOf jd = "resume_jd".data := by rw [modeOf, if_neg h]
    rw [List.isEmpty_iff, jsTrim_nil_iff] at h
    refine ⟨?_, ?_, by rw [modeOf]; rfl⟩
    · rw [hmode]
      exact iff_of_true rfl h
    · rw [hmode]
      exact iff_of_false (fun he => hne he.symm) h

theorem demoUploadAfterExtract_fileRemoved (s : Session) (env : UploadEnv) :
    (demoUploadAfterExtract s env).fileRemoved = true := by
  rw [demoUploadAfterExtract]
  rcases env.completionResult with _ | raw
  · rfl
  · simp only
    cases demoSanitize raw <;> rfl

/-- C5 (amended): temporary-file cleanup (demo-variant server.js lines
399-413 and 506-509). For every execution of the upload handler in which
text extraction is attempted (a file is present and its declared MIME type
is PDF or DOCX), the temporary file is removed iff extraction succeeds:
the sole unlink call sits after the extraction branches, so an extraction
throw jumps to the catch block without removing the file. The claim's
"removed on every exit path" is refuted by spec_C5_counterexample. -/
theorem spec_C5 (s : Session) (env : UploadEnv) (mime : List Char)
    (hf : env.file = some mime) (hm : mime = pdfMime ∨ mime = docxMime) :
    ((demoUploadCore s env).fileRemoved = true ↔ ∃ t, env.extractResult = .ok t) := by
  rw [demoUploadCore, hf]
  rcases hm with hm | hm <;> subst hm
  · simp only [if_pos rfl]
    rcases hex : env.extractResult with e | t
    · simp
    · simp [demoUploadAfterExtract_fileRemoved]
  · simp only [if_neg (show ¬docxMime = pdfMime by decide), if_pos rfl]
    rcases hex : env.extractResult with e | t
    · simp
    · simp [demoUploadAfterExtract_fileRemoved]

/-- C5 is false as stated: with a PDF upload whose extraction throws,
extraction has been attempted but the handler returns "Analysis failed"
without removing the temporary file. -/
theorem spec_C5_counterexample :
    (demoUploadCore { user := none, demoCount := some 1 }
      { file := some pdfMime, extractResult := .error (),
        completionResult := .error (), jobdesc := none }).fileRemoved = false ∧
    (demoUploadCore { user := none, demoCount := some 1 }
      { file := some pdfMime, extractResult := .error (),
        completionResult := .error (), jobdesc := none }).resp.message =
      some analysisFailedMsg := by
  exact ⟨rfl, rfl⟩

/-- C7: registration contract (server.js lines 68-84 and 320-338). With
either field empty the handler fails with the validation message and
touches no store; with both fields non-empty it hashes the password and
attempts the insert of (username, hash), and any store rejection yields the
single undistinguished message "User already exists or DB error". -/
theorem spec_C7 (u p : List Char) (hashFn : List Char → Except Unit (List Char))
    (ins : Bool) :
    ((u = [] ∨ p = []) →
      registerHandler (some u) (some p) hashFn ins =
        { resp := { success := false, message := some needCredsMsg }, inserted := none }) ∧
    (u ≠ [] → p ≠ [] →
      (∀ h, hashFn p = .ok h →
        (registerHandler (some u) (some p) hashFn ins).inserted = some (u, h) ∧
        (ins = true →
          (registerHandler (some u) (some p) hashFn ins).resp =
            { success := false, message := some conflictMsg }) ∧
        (ins = false →
          (registerHandler (some u) (some p) hashFn ins).resp = { success := true })) ∧
      (hashFn p = .error () →
        (registerHandler (some u) (some p) hashFn ins).resp =
          { success := false, message := some conflictMsg })) := by
  constructor
  · intro h
    rw [registerHandler, if_pos]
    rcases h with h | h <;> subst h <;> simp [jsFalsy]
  · intro hu hp
    have hfalse : (jsFalsy (some u) || jsFalsy (some p)) = false := by
      simp [jsFalsy, List.isEmpty_iff, hu, hp]
    constructor
    · intro h hh
      rw [registerHandler, if_neg (by rw [hfalse]; simp)]
      simp only [Option.getD_some, hh]
      cases ins <;> simp
    · intro hh
      rw [registerHandler, if_neg (by rw [hfalse]; simp)]
      simp only [Option.getD_some, hh]

/-- C8: unsupported-format short circuit (demo-variant server.js lines
399-411 and 469-470). For every admitted upload whose declared MIME type is
neither PDF nor DOCX, the handler responds success := false with
"Unsupported file format" and the completion client is never called. -/
theorem spec_C8 (s : Session) (env : UploadEnv) (mime : List Char)
    (hf : env.file = some mime) (h1 : mime ≠ pdfMime) (h2 : mime ≠ docxMime) :
    (demoUploadCore s env).resp =
      { success := false, message := some unsupportedMsg } ∧
    (demoUploadCore s env).completionCalled = false := by
  rw [demoUploadCore, hf]
  simp only [if_neg h1, if_neg h2]
  exact ⟨trivial, trivial⟩

/-- C4 (amended): sanitizer failure condition (demo-variant server.js lines
479-495). For every raw completion text that contains no opening brace
(hence no brace pair: the slicing step is the identity) and whose trimmed,
fence-stripped form is not itself a valid JSON value, sanitization fails
and the handler returns success := false with the format-error message.
The amendment "and is not itself a valid JSON value" is forced by
spec_C4_counterexample: JSON.parse accepts brace-free documents such as a
bare number. -/
theorem spec_C4 (s : Session) (env : UploadEnv) (raw txt : List Char)
    (hf : env.file = some pdfMime) (he : env.extractResult = .ok txt)
    (hcmp : env.completionResult = .ok raw)
    (hb1 : '{' ∉ raw)
    (hparse : jsonParse (preprocessRaw raw) = none) :
    extractJsonText raw = preprocessRaw raw ∧
    demoSanitize raw = none ∧
    (demoUploadCore s env).resp =
      { success := false, message := some formatErrDemoMsg } := by
  have hext : extractJsonText raw = preprocessRaw raw := extractJsonText_no_brace raw hb1
  have hsan : demoSanitize raw = none := by rw [demoSanitize, hext, hparse]
  refine ⟨hext, hsan, ?_⟩
  rw [demoUploadCore, hf]
  simp only [if_pos rfl, he]
  rw [demoUploadAfterExtract, hcmp]
  simp only [hsan]
  rw [if_pos trivial]

/-- C4 is false as stated: the raw text "123" contains no brace pair, yet
sanitization succeeds (JSON.parse accepts a bare number after the
brace-slicing step finds no braces and leaves the text unchanged), and the
handler returns success := true with the parsed number as the analysis. -/
theorem spec_C4_counterexample :
    '{' ∉ "123".data ∧ '}' ∉ "123".data ∧
    demoSanitize "123".data = some (.jnum 123) ∧
    (demoUploadCore { user := none, demoCount := some 1 }
      { file := some pdfMime, extractResult := .ok "Python".data,
        completionResult := .ok "123".data, jobdesc := none }).resp.success = true := by
  refine ⟨by decide, by decide, rfl, rfl⟩

/-- C6 (amended): propagation policy. The register handler, the
authenticated-variant login, and both upload handlers convert every
internal error to a JSON body carrying success := false and a message;
the demo-variant login (server.js lines 341-363, no try/catch) is the
exception: it propagates a fault of the store lookup, or of the hash
comparison once a row is found, out of the handler unhandled. -/
theorem spec_C6 :
    (∀ u p lk pw s, ∃ out, authLogin u p lk pw s = .ok out) ∧
    (∀ lk pw s, (∃ e, demoLogin lk pw s = .error e) ↔
      (lk = .error () ∨ ∃ row, lk = .ok (some row) ∧ pw = .error ())) ∧
    (∀ u p hf ins, (registerHandler u p hf ins).resp.success = false →
      ∃ m, (registerHandler u p hf ins).resp.message = some m) ∧
    (∀ s env, (demoUploadCore s env).resp.success = false →
      ∃ m, (demoUploadCore s env).resp.message = some m) ∧
    (∀ env, (authUploadCore env).resp.success = false →
      ∃ m, (authUploadCore env).resp.message = some m) := by
  refine ⟨?_, ?_, ?_, ?_, ?_⟩
  · intro u p lk pw s
    unfold authLogin
    repeat' split
    all_goals exact ⟨_, rfl⟩
  · intro lk pw s
    unfold demoLogin
    rcases lk with e | o
    · rcases e
      simp
    · rcases o with _ | row
      · simp
      · rcases pw with e | b
        · rcases e
          simp
        · rcases b with _ | _ <;> simp
  · intro u p hf ins
    unfold registerHandler
    repeat' split
    all_goals simp
  · intro s env
    unfold demoUploadCore demoUploadAfterExtract
    repeat' split
    all_goals simp
  · intro env
    unfold authUploadCore
    repeat' split
    all_goals simp

/-- C6 is false as stated: a store-lookup fault inside the demo-variant
login handler leaves the handler as an unhandled error rather than a JSON
success := false body. -/
theorem spec_C6_counterexample :
    demoLogin (.error ()) (.ok true) { user := none, demoCount := none } = .error () := rfl

theorem count_invariant (s : Session) (h : Reachable s) : sessionCount s ≤ DEMO_LIMIT := by
  induction h with
  | init => decide
  | upload s env hr ih =>
    rw [demoUploadRoute]
    by_cases hu : s.user.isSome = true
    · rw [demoLimiter, if_pos hu]
      exact ih
    · rw [demoLimiter, if_neg hu]
      by_cases hc : DEMO_LIMIT ≤ sessionCount s
      · simp only [if_pos hc]
        exact ih
      · simp only [if_neg hc]
        show sessionCount s + 1 ≤ DEMO_LIMIT
        omega
  | login s s' lookup pw r hr heq ih =>
    rcases lookup with e | o
    · simp [demoLogin] at heq
    · rcases o with _ | row
      · simp [demoLogin] at heq
        rw [← heq.2]
        exact ih
      · rcases pw with e | b
        · simp [demoLogin] at heq
        · rcases b with _ | _
          · simp [demoLogin] at heq
            rw [← heq.2]
            exact ih
          · simp [demoLogin] at heq
            rw [← heq.2]
            show (0 : Nat) ≤ DEMO_LIMIT
            decide
  | logout s hr ih => decide

theorem demoRemaining_bounds (s : Session) (r : Int) (h : demoRemaining s = some r) :
    0 ≤ r ∧ r ≤ 3 := by
  rw [demoRemaining] at h
  by_cases hu : s.user.isSome = true
  · rw [if_pos hu] at h
    exact absurd h (by simp)
  · rw [if_neg hu] at h
    simp only [Option.some.injEq] at h
    have h0 : (0 : Int) ≤ (sessionCount s : Int) := Int.natCast_nonneg _
    constructor
    · rw [← h]
      exact le_max_left 0 _
    · rw [← h]
      refine max_le (by norm_num) ?_
      show (DEMO_LIMIT : Int) - (sessionCount s : Int) ≤ 3
      rw [show ((DEMO_LIMIT : Nat) : Int) = 3 from rfl]
      omega

/-- C9: implicit bound on the demo counter (demo-variant server.js lines
288-305, 371-383, 497-499). In every reachable session state the counter is
at most DEMO_LIMIT = 3, and every remainingTries value reported by
/demo-status or /upload is an integer clamped to 0..3 (it is null exactly
for authenticated sessions), and this holds for any stored counter value,
not only reachable ones. -/
theorem spec_C9 :
    (∀ s, Reachable s → sessionCount s ≤ DEMO_LIMIT) ∧
    (∀ s r, (demoStatusHandler s).remainingTries = some r → 0 ≤ r ∧ r ≤ 3) ∧
    (∀ s env r, (demoUploadCore s env).resp.remainingTries = some r → 0 ≤ r ∧ r ≤ 3) := by
  refine ⟨count_invariant, ?_, ?_⟩
  · intro s r h
    exact demoRemaining_bounds s r h
  · intro s env r h
    unfold demoUploadCore demoUploadAfterExtract at h
    repeat' split at h
    all_goals simp_all
    all_goals exact demoRemaining_bounds s r h

/-- C10: status-code convention (demo-variant server.js lines 295-301,
486-495, 506-509). Every failure body of /register and /login and every
/upload response is sent with HTTP status 200, except the demo-quota
rejection, which is the unique 401 and occurs exactly when the session is
unauthenticated with counter at the limit. -/
theorem spec_C10 :
    (∀ u p hf ins, (registerHandler u p hf ins).resp.status = 200) ∧
    (∀ u p lk pw s r s', authLogin u p lk pw s = .ok (r, s') → r.status = 200) ∧
    (∀ lk pw s r s', demoLogin lk pw s = .ok (r, s') → r.status = 200) ∧
    (∀ s env,
      ((demoUploadRoute s env).resp.status = 200 ∨
        ((demoUploadRoute s env).resp.status = 401 ∧
         (demoUploadRoute s env).resp.message = some demoLimitMsg ∧
         (demoUploadRoute s env).resp.success = false)) ∧
      ((demoUploadRoute s env).resp.status = 401 ↔
        (s.user = none ∧ DEMO_LIMIT ≤ sessionCount s))) := by
  refine ⟨?_, ?_, ?_, ?_⟩
  · intro u p hf ins
    unfold registerHandler
    repeat' split
    all_goals rfl
  · intro u p lk pw s r s' h
    unfold authLogin at h
    repeat' split at h
    all_goals simp_all
    all_goals rw [← h.1]
  · intro lk pw s r s' h
    unfold demoLogin at h
    repeat' split at h
    all_goals simp_all
    all_goals rw [← h.1]
  · intro s env
    have hcore : ∀ s', (demoUploadCore s' env).resp.status = 200 := by
      intro s'
      unfold demoUploadCore demoUploadAfterExtract
      repeat' split
      all_goals rfl
    rw [demoUploadRoute]
    by_cases hu : s.user.isSome = true
    · rw [demoLimiter, if_pos hu]
      have hu' : ¬ s.user = none := by
        intro he
        rw [he] at hu
        simp at hu
      simp [hcore, hu']
    · rw [demoLimiter, if_neg hu]
      by_cases hc : DEMO_LIMIT ≤ sessionCount s
      · simp only [if_pos hc]
        have hu' : s.user = none := by
          rcases hsu : s.user with _ | u
          · rfl
          · rw [hsu] at hu
            simp at hu
        simp [hu', hc]
      · simp only [if_neg hc]
        simp [hcore, hc]

/-- C2: Response Sanitizer round trip (demo-variant server.js lines 472-495).
For every AnalysisResult record, the sanitizer (JS trim, conditional fence
stripping, first-brace/last-brace slicing, JSON.parse) applied to the
record's canonical JSON serialization recovers exactly the record's JSON
value, and applied to that serialization padded with the leading prose
"Here is the result:", a leading fence line and a trailing fence it also
recovers the record's JSON value. -/
theorem spec_C2 (r : AnalysisResult) :
    demoSanitize (canonSer r) = some (analysisJson r) ∧
    demoSanitize (prosePrefix ++ canonSer r ++ fenceSuffix) = some (analysisJson r) :=
  ⟨demoSanitize_canon r, demoSanitize_fenced r⟩

/-- C1 witness: at counter 3 the gate rejects with 401; at counter 1 it
admits and stores counter 2. -/
theorem spec_C1_witness :
    demoLimiter { user := none, demoCount := some 3 } = .reject
      { status := 401, success := false, message := some demoLimitMsg,
        analysis := none, remainingTries := none, demoLimitReached := true } ∧
    demoLimiter { user := none, demoCount := some 1 } =
      .allow { user := none, demoCount := some 2 } := by
  constructor
  · exact ((spec_C1 { user := none, demoCount := some 3 }).2.1 rfl).2.2.1 (by decide)
  · exact ((spec_C1 { user := none, demoCount := some 1 }).2.1 rfl).2.1 (by decide)

/-- C3 witness: a single-space job description yields resume_only; the
job description "x" yields resume_jd. -/
theorem spec_C3_witness :
    modeOf (some [' ']) = "resume_only".data ∧ modeOf (some ['x']) = "resume_jd".data := by
  constructor
  · exact (spec_C3 (some [' '])).2.1.mpr (by decide)
  · exact (spec_C3 (some ['x'])).1.mpr (by decide)

/-- C4 witness: on the concrete brace-free, non-JSON completion text
"no json here" the demo upload handler returns the format-error response. -/
theorem spec_C4_witness :
    (demoUploadCore { user := none, demoCount := some 1 }
      { file := some pdfMime, extractResult := .ok "Resume text".data,
        completionResult := .ok "no json here".data, jobdesc := none }).resp =
      { success := false, message := some formatErrDemoMsg } :=
  (spec_C4 { user := none, demoCount := some 1 }
    { file := some pdfMime, extractResult := .ok "Resume text".data,
      completionResult := .ok "no json here".data, jobdesc := none }
    "no json here".data "Resume text".data rfl rfl rfl (by decide) rfl).2.2

/-- C5 witness: with a PDF upload whose extraction succeeds, the temporary
file is removed. -/
theorem spec_C5_witness :
    (demoUploadCore { user := none, demoCount := some 1 }
      { file := some pdfMime, extractResult := .ok "CV".data,
        completionResult := .ok ['{', '}'], jobdesc := none }).fileRemoved = true :=
  (spec_C5 { user := none, demoCount := some 1 }
    { file := some pdfMime, extractResult := .ok "CV".data,
      completionResult := .ok ['{', '}'], jobdesc := none }
    pdfMime rfl (Or.inl rfl)).mpr ⟨"CV".data, rfl⟩

/-- C6 witness: the register handler with both fields missing produces a
failing JSON body that carries a message. -/
theorem spec_C6_witness :
    ∃ m, (registerHandler none none (fun _ => Except.ok []) false).resp.message = some m :=
  spec_C6.2.2.1 none none (fun _ => Except.ok []) false rfl

/-- C7 witness: registering alice/pw with a hash capability inserts the
hashed password; an empty username yields the validation message. -/
theorem spec_C7_witness :
    (registerHandler (some "alice".data) (some "pw".data)
      (fun p => Except.ok ('h' :: p)) false).inserted =
        some ("alice".data, 'h' :: "pw".data) ∧
    (registerHandler (some []) (some "pw".data)
      (fun p => Except.ok ('h' :: p)) false).resp.message = some needCredsMsg := by
  constructor
  · exact (((spec_C7 "alice".data "pw".data (fun p => Except.ok ('h' :: p)) false).2
      (by decide) (by decide)).1 ('h' :: "pw".data) rfl).1
  · have h := (spec_C7 [] "pw".data (fun p => Except.ok ('h' :: p)) false).1 (Or.inl rfl)
    rw [h]

/-- C8 witness: a text/plain upload never reaches the completion client. -/
theorem spec_C8_witness :
    (demoUploadCore { user := none, demoCount := some 1 }
      { file := some "text/plain".data, extractResult := .ok [],
        completionResult := .ok [], jobdesc := none }).completionCalled = false :=
  (spec_C8 { user := none, demoCount := some 1 }
    { file := some "text/plain".data, extractResult := .ok [],
      completionResult := .ok [], jobdesc := none }
    "text/plain".data rfl (by decide) (by decide)).2

/-- C9 witness: the initial session satisfies the counter bound, and its
demo-status report is 3 remaining tries, within 0..3. -/
theorem spec_C9_witness :
    sessionCount { user := none, demoCount := none } ≤ DEMO_LIMIT ∧
    (0 ≤ (3 : Int) ∧ (3 : Int) ≤ 3) :=
  ⟨spec_C9.1 { user := none, demoCount := none } Reachable.init,
   spec_C9.2.1 { user := none, demoCount := none } 3 rfl⟩

/-- C10 witness: the validation-failure login body is sent with status
200. -/
theorem spec_C10_witness :
    ({ success := false, message := some needCredsMsg } : Resp).status = 200 :=
  spec_C10.2.1 none none (Except.error ()) (Except.error ())
    { user := none, demoCount := none }
    { success := false, message := some needCredsMsg }
    { user := none, demoCount := none } rfl
